import Mathlib

/-!
Verification of `src/analysis/seasonal_trends.py` (SeasonalTrendDetector).

Shallow embedding of the seasonal-trend module of the
Aadhaar-Societal-Trend-Analytics repository.  Machine floats of the source
are rendered in exact rational arithmetic (`ℚ`); the cases in which the
source produces IEEE `NaN` (mean/std of an empty or single-element series,
`0/0`) are modelled explicitly with `Option`/result variants, as noted at
each definition.  Square roots (`Series.std`) are kept symbolic: the
definitions carry the exact variance, and theorems relate them to the real
value `Real.sqrt variance`.
-/

/-- A calendar date, the post-`pd.to_datetime` value of the `date` column.
Only `year`/`month` participate in the aggregations under verification
(`pd.Grouper(freq='ME')` buckets by calendar month; `dt.month`, `dt.quarter`
are derived from `month`). -/
structure Date where
  year : Int
  month : Int
  day : Int
deriving DecidableEq, Repr

/-- One row of the detector's DataFrame: a `date` and its `enrolments`
count. -/
structure Row where
  date : Date
  enrolments : Int
deriving DecidableEq, Repr

/-- Absolute month number of a date: months since year 0.  Two dates fall in
the same `pd.Grouper(freq='ME')` bucket iff they have the same
`monthIndex`; the order of `monthIndex` is the chronological order of the
month-end bucket labels. -/
def monthIndex (d : Date) : Int := 12 * d.year + (d.month - 1)

/-- Month bucket key of a row. -/
def rowKey (r : Row) : Int := monthIndex r.date

/-- Sum of `enrolments` over the rows falling in month bucket `k`. -/
def bucketTotal (rows : List Row) (k : Int) : Int :=
  ((rows.filter fun r => rowKey r = k).map fun r => r.enrolments).sum

/-- `self.data.groupby(pd.Grouper(key='date', freq='ME'))['enrolments'].sum()`
(lines 51-53 and 121-123 of `seasonal_trends.py`).  `pd.Grouper` with a
frequency bins like `resample`: the bins form the complete run of calendar
months from the month of the earliest row to the month of the latest row,
and months containing no row appear with sum `0`.  Keys ascend
chronologically.  On an empty frame the result is empty. -/
def monthlyTotals (rows : List Row) : List (Int × Int) :=
  match rows with
  | [] => []
  | r :: rs =>
    let lo := (rs.map rowKey).foldl min (rowKey r)
    let hi := (rs.map rowKey).foldl max (rowKey r)
    (List.range (hi - lo + 1).toNat).map fun i : ℕ =>
      (lo + (i : Int), bucketTotal (r :: rs) (lo + (i : Int)))

/-- The month bucket of the earliest row: the first bin edge of the
`pd.Grouper` binner (`0` for an empty frame, unused there). -/
def firstKey (rows : List Row) : Int :=
  match rows with
  | [] => 0
  | r :: rs => (rs.map rowKey).foldl min (rowKey r)

/-- The month bucket of the latest row: the last bin edge of the
`pd.Grouper` binner. -/
def lastKey (rows : List Row) : Int :=
  match rows with
  | [] => 0
  | r :: rs => (rs.map rowKey).foldl max (rowKey r)

/-- The monthly totals as rationals (the float series the statistics of
lines 126-128 are taken over). -/
def totals (rows : List Row) : List ℚ :=
  (monthlyTotals rows).map fun kv => (kv.2 : ℚ)

/-- `Series.mean()`.  The source value for an empty series is `NaN`; this
rational rendering returns the junk value `0` there (division by zero in
`ℚ`), and every use below is guarded so that the empty case never reaches a
result. -/
def listMean (l : List ℚ) : ℚ := l.sum / (l.length : ℚ)

/-- `Series.std() ** 2`: the square of the pandas sample standard deviation,
i.e. the sample variance with `ddof=1` (denominator `N - 1`).  For `N < 2`
the source `std` is `NaN`; the junk rational returned here is never used
un-guarded. -/
def sampleVar (l : List ℚ) : ℚ :=
  ((l.map fun x => (x - listMean l) ^ 2).sum) / ((l.length : ℚ) - 1)

/-- The `'type'` field of an anomaly dict: `'spike' if z_score > 0 else
'drop'` (line 138). -/
inductive AnomalyKind where
  | spike
  | drop
deriving DecidableEq, Repr

/-- One element of the list returned by `detect_anomalous_periods`
(lines 133-141): the `'%Y-%m'`-formatted date is modelled by the absolute
month index, `'enrolments'` is the bucket total, `'z_score'` is determined
by the other fields (it equals `(enrolments - mean) / sqrt variance`) and is
not duplicated in the record. -/
structure AnomalyRecord where
  month : Int
  enrolments : Int
  kind : AnomalyKind
deriving DecidableEq, Repr

/-- The filter of line 131, `np.abs(z_score) > threshold`, as an exact
Boolean on the bucket count `n`, mean `m`, sample variance `v`, threshold
`t` and bucket total `x`: see the doc of `detect_anomalous_periods` for the
correspondence with the IEEE comparison. -/
def isAnomalous (n : ℕ) (m v t x : ℚ) : Bool :=
  decide (2 ≤ n) && decide (v ≠ 0) &&
    (decide (t < 0) || decide (t ^ 2 * v < (x - m) ^ 2))

/-- `detect_anomalous_periods(threshold)` (lines 110-141).  The source
filters the monthly buckets by `np.abs((x - mean) / std) > threshold` with
`std` the sample standard deviation.  Exact-arithmetic rendering of that
IEEE comparison: when fewer than 2 buckets exist `std` is `NaN`, and when
the variance is zero every numerator is zero so each z-score is `0/0 = NaN`;
every comparison against a `NaN` is false, hence the guard `2 ≤ n ∧ v ≠ 0`
inside `isAnomalous`.  With a genuine positive variance, `|z| > t` holds iff
`t < 0` or `t² · v < (x - mean)²`, and `z > 0` iff `mean < x`. -/
def detect_anomalous_periods (rows : List Row) (threshold : ℚ) :
    List AnomalyRecord :=
  let monthly := monthlyTotals rows
  let n := monthly.length
  let xs := monthly.map fun kv => (kv.2 : ℚ)
  let m := listMean xs
  let v := sampleVar xs
  monthly.filterMap fun kv =>
    if isAnomalous n m v threshold (kv.2 : ℚ) then
      some ⟨kv.1, kv.2, if m < (kv.2 : ℚ) then .spike else .drop⟩
    else none

/-- `dt.quarter` (line 35): the calendar quarter of the month,
`(month - 1) / 3 + 1`. -/
def quarterOf (d : Date) : Int := (d.month - 1) / 3 + 1

/-- Ascending deduplicated keys: `groupby` sorts the group keys in ascending
order, one group per distinct key present in the data. -/
def sortedKeys (l : List Int) : List Int :=
  List.insertionSort (fun a b => a ≤ b) l.dedup

/-- The distinct `month` values present, ascending (the index of
`self.data.groupby('month')`). -/
def monthsPresent (rows : List Row) : List Int :=
  sortedKeys (rows.map fun r => r.date.month)

/-- The distinct `quarter` values present, ascending. -/
def quartersPresent (rows : List Row) : List Int :=
  sortedKeys (rows.map fun r => quarterOf r.date)

/-- `groupby('month')['enrolments'].mean()` at month `m`: arithmetic mean of
the counts of all rows sharing that month value, across years (line 85). -/
def monthMean (rows : List Row) (m : Int) : ℚ :=
  let g := rows.filter fun r => r.date.month = m
  ((g.map fun r => (r.enrolments : ℚ)).sum) / (g.length : ℚ)

/-- `groupby('quarter')['enrolments'].mean()` at quarter `q` (line 95). -/
def quarterMean (rows : List Row) (q : Int) : ℚ :=
  let g := rows.filter fun r => quarterOf r.date = q
  ((g.map fun r => (r.enrolments : ℚ)).sum) / (g.length : ℚ)

/-- `identify_peak_months` (lines 78-86):
`monthly_avg.sort_values(ascending=False).to_dict()`, one `(month, mean)`
pair per month value present, ordered descending by mean.  pandas sorts
with an unstable quicksort whose tie order is unspecified; the embedding
uses a deterministic insertion sort, and the theorems below only state
properties (entry multiset, descending values) shared by every
value-descending arrangement. -/
def identify_peak_months (rows : List Row) : List (Int × ℚ) :=
  List.insertionSort (fun a b : Int × ℚ => b.2 ≤ a.2)
    ((monthsPresent rows).map fun m => (m, monthMean rows m))

/-- `identify_peak_quarters` (lines 88-96). -/
def identify_peak_quarters (rows : List Row) : List (Int × ℚ) :=
  List.insertionSort (fun a b : Int × ℚ => b.2 ≤ a.2)
    ((quartersPresent rows).map fun q => (q, quarterMean rows q))

instance : IsTotal (Int × ℚ) (fun a b : Int × ℚ => b.2 ≤ a.2) :=
  ⟨fun a b => le_total b.2 a.2⟩

instance : IsTrans (Int × ℚ) (fun a b : Int × ℚ => b.2 ≤ a.2) :=
  ⟨fun _ _ _ hab hbc => le_trans hbc hab⟩

/-- The series `monthly_avg = self.data.groupby('month')['enrolments'].mean()`
of line 105, ascending by month key (the order is immaterial to its mean
and standard deviation). -/
def monthMeans (rows : List Row) : List ℚ :=
  (monthsPresent rows).map (monthMean rows)

/-- The float returned by `calculate_seasonality_strength` (line 108),
classified exactly.  `cv = monthly_avg.std() / monthly_avg.mean()` with the
pandas sample standard deviation, and the function returns `min(cv, 1.0)`:

* `nan`: the float is IEEE `NaN` — either fewer than 2 distinct months
  (`std()` of a length-< 2 series is `NaN`, and Python's
  `min(nan, 1.0)` keeps its first argument since `1.0 < nan` is false), or
  mean and variance both zero (`0/0`);
* `clampedOne`: `cv ≥ 1` — including `mean = 0 < variance`, where the
  float quotient is `+inf` — so `min(cv, 1.0) = 1.0` exactly;
* `cv v m`: the finite value `sqrt v / m < 1` (negative iff `m < 0`),
  returned unclamped. -/
inductive StrengthResult where
  | nan
  | clampedOne
  | cv (variance mean : ℚ)
deriving DecidableEq, Repr

/-- `calculate_seasonality_strength` (lines 98-108); see `StrengthResult`
for the correspondence with the float result. -/
def calculate_seasonality_strength (rows : List Row) : StrengthResult :=
  let ms := monthMeans rows
  let m := listMean ms
  let v := sampleVar ms
  if ms.length < 2 then .nan
  else if m = 0 then (if v = 0 then .nan else .clampedOne)
  else if 0 < m ∧ m ^ 2 ≤ v then .clampedOne
  else .cv v m

/-- `int(self.data['enrolments'].sum())` (line 160). -/
def total_enrolments (rows : List Row) : Int :=
  (rows.map fun r => r.enrolments).sum

/-- `float(self.data.groupby(pd.Grouper(key='date', freq='ME'))
['enrolments'].sum().mean())` (lines 161-165).  `none` models the `NaN`
produced by `mean()` of an empty series (empty input), returned silently,
not raised. -/
def average_monthly_enrolments (rows : List Row) : Option ℚ :=
  match totals rows with
  | [] => none
  | x :: xs => some (listMean (x :: xs))

/-- The dict returned by `get_seasonal_summary` (lines 143-166).  The
seasonality strength is recorded through its exact `StrengthResult`
classification. -/
structure SeasonalSummary where
  peak_months : List (Int × ℚ)
  peak_quarters : List (Int × ℚ)
  seasonality_strength : StrengthResult
  anomalous_periods : List AnomalyRecord
  total_enrolments : Int
  average_monthly_enrolments : Option ℚ
deriving DecidableEq, Repr

/-- Value of a series at index `i` (`0` out of range; every use below is
guarded by the series length). -/
def seriesAt (x : List ℚ) (i : ℕ) : ℚ := x.getD i 0

/-- Modelled from the spec: the trend filter of the external additive
decomposition algorithm (`statsmodels.tsa.seasonal.seasonal_decompose`,
line 64, not part of this repository), per §4.3: "moving-average-based
trend extraction" by the classical centered moving average.  For an even
period the window spans `period + 1` points with half weight at its two
ends; for an odd period it is the plain centered `period`-point mean.
Meaningful at the interior indices `period/2 ≤ i < n - period/2`. -/
def maAt (x : List ℚ) (p i : ℕ) : ℚ :=
  if p % 2 = 0 then
    (seriesAt x (i - p / 2) / 2
        + ((List.range (p - 1)).map fun k =>
            seriesAt x (i - p / 2 + 1 + k)).sum
        + seriesAt x (i + p / 2) / 2) / (p : ℚ)
  else
    ((List.range p).map fun k => seriesAt x (i - p / 2 + k)).sum / (p : ℚ)

/-- Least-squares line through the given points, as
`(intercept, slope)`. -/
def olsLine (pts : List (ℚ × ℚ)) : ℚ × ℚ :=
  let n : ℚ := (pts.length : ℚ)
  let sx := (pts.map fun q => q.1).sum
  let sy := (pts.map fun q => q.2).sum
  let sxx := (pts.map fun q => q.1 ^ 2).sum
  let sxy := (pts.map fun q => q.1 * q.2).sum
  let b := (n * sxy - sx * sy) / (n * sxx - sx ^ 2)
  (sy / n - b * (sx / n), b)

/-- The first `period` interior trend points, as abscissa/ordinate pairs
for the front extrapolation line. -/
def frontPts (x : List ℚ) (p : ℕ) : List (ℚ × ℚ) :=
  (List.range p).map fun k =>
    (((p / 2 + k : ℕ) : ℚ), maAt x p (p / 2 + k))

/-- The last `period` interior trend points, for the back extrapolation
line. -/
def backPts (x : List ℚ) (p : ℕ) : List (ℚ × ℚ) :=
  (List.range p).map fun k =>
    let i := x.length - 1 - p / 2 - (p - 1) + k
    ((i : ℚ), maAt x p i)

/-- Modelled from the spec: the trend component under
`extrapolate_trend='freq'` (line 68), per §4.3 "trend extrapolated to
cover the full span (no leading/trailing NaN trend values) using a
periodic-frequency extrapolation strategy": the moving average where it is
defined, and the least-squares line through the first (resp. last)
`period` moving-average points before (resp. after) the interior.  Total:
every index gets a rational value, which is the formal content of "no
missing trend values". -/
def trendAt (x : List ℚ) (p i : ℕ) : ℚ :=
  if p / 2 ≤ i ∧ i + p / 2 < x.length then maAt x p i
  else if i < p / 2 then
    let ab := olsLine (frontPts x p)
    ab.1 + ab.2 * (i : ℚ)
  else
    let ab := olsLine (backPts x p)
    ab.1 + ab.2 * (i : ℚ)

/-- The detrended series `observed - trend`. -/
def detrendAt (x : List ℚ) (p i : ℕ) : ℚ := seriesAt x i - trendAt x p i

/-- Modelled from the spec: the raw period average of the detrended series
over the indices congruent to `r` modulo the period (§4.3 "a
period-average seasonal component"). -/
def periodAvg (x : List ℚ) (p r : ℕ) : ℚ :=
  let idxs := (List.range x.length).filter fun i => i % p = r
  ((idxs.map (detrendAt x p)).sum) / ((idxs.length : ℕ) : ℚ)

/-- The seasonal component: the period averages, centered so that they sum
to zero over one period, tiled over the series. -/
def seasonalAt (x : List ℚ) (p i : ℕ) : ℚ :=
  periodAvg x p (i % p)
    - ((List.range p).map (periodAvg x p)).sum / (p : ℚ)

/-- The residual component, computed as
`observed - trend - seasonal` exactly as the additive decomposition
defines it. -/
def residAt (x : List ℚ) (p i : ℕ) : ℚ :=
  seriesAt x i - trendAt x p i - seasonalAt x p i

/-- The value of `detect_seasonal_pattern` (lines 40-76): either the
error dict of lines 57-61 (`required_periods`, `available_periods`), or
the four component series of lines 71-76, each keyed by the monthly
bucket. -/
inductive DecompResult where
  | insufficientData (required available : ℕ)
  | decomposed (observed trend seasonal residual : List (Int × ℚ))
deriving DecidableEq, Repr

/-- `detect_seasonal_pattern(period)` (lines 40-76): aggregates to monthly
totals, returns the insufficient-data variant when fewer than `2 * period`
buckets exist (lines 56-61) WITHOUT running the decomposition, and
otherwise the four decomposition series keyed by month. -/
def detect_seasonal_pattern (rows : List Row) (period : ℕ) : DecompResult :=
  let monthly := monthlyTotals rows
  let n := monthly.length
  if n < 2 * period then .insufficientData (2 * period) n
  else
    let x : List ℚ := monthly.map fun kv => (kv.2 : ℚ)
    let key := fun i : ℕ => (monthly.map fun kv => kv.1).getD i 0
    .decomposed
      ((List.range n).map fun i => (key i, seriesAt x i))
      ((List.range n).map fun i => (key i, trendAt x period i))
      ((List.range n).map fun i => (key i, seasonalAt x period i))
      ((List.range n).map fun i => (key i, residAt x period i))

/-- `get_seasonal_summary` (lines 143-166); the anomaly threshold is the
default `2.0`. -/
def get_seasonal_summary (rows : List Row) : SeasonalSummary where
  peak_months := identify_peak_months rows
  peak_quarters := identify_peak_quarters rows
  seasonality_strength := calculate_seasonality_strength rows
  anomalous_periods := detect_anomalous_periods rows 2
  total_enrolments := total_enrolments rows
  average_monthly_enrolments := average_monthly_enrolments rows

/-- A raw input row whose `date` cell is a string, one of the input shapes
the detector accepts (§6: the date field may be "a native date type or a
parseable string"; `pd.to_datetime` at line 31 converts it after the sort
of line 24). -/
structure RawRow where
  date : String
  enrolments : Int
deriving DecidableEq, Repr

/-- Decimal digits to a number; `none` on an empty or non-digit list. -/
def digitsToNat (cs : List Char) : Option ℕ :=
  if cs.isEmpty then none
  else
    cs.foldl
      (fun acc c =>
        acc.bind fun n =>
          if c.isDigit then some (10 * n + (c.toNat - 48)) else none)
      (some 0)

/-- Modelled from the spec: `pd.to_datetime` (line 31) on a
dash-separated `year-month-day` digit string, the only raw format the
development needs; a cell that does not parse raises, i.e. yields `none`
(§4.1 `TypeConversionError`). -/
def parseDate (s : String) : Option Date :=
  match (s.toList).splitOn '-' with
  | [y, m, d] =>
    match digitsToNat y, digitsToNat m, digitsToNat d with
    | some a, some b, some c => some ⟨(a : Int), (b : Int), (c : Int)⟩
    | _, _, _ => none
  | _ => none

/-- `self.data.sort_values('date')` (line 24) on a frame whose `date`
column holds strings: pandas sorts an object column by Python string
comparison, i.e. lexicographically by code point.  pandas' default
quicksort is unstable, but over pairwise-distinct keys every comparison
sort yields the same list, so the deterministic insertion sort used here
assumes nothing about tie order for the distinct-key inputs evaluated
below. -/
def sort_values_raw (rows : List RawRow) : List RawRow :=
  List.insertionSort (fun a b => a.date ≤ b.date) rows

/-- Lines 23-31 on a string-dated frame: copy, sort by the **raw** `date`
column, then convert the column with `pd.to_datetime`.  `none` models the
construction-time parse failure. -/
def prepare_raw (rows : List RawRow) : Option (List Row) :=
  (sort_values_raw rows).mapM fun r =>
    (parseDate r.date).map fun d => Row.mk d r.enrolments
/-! ## Helper lemmas -/

lemma foldl_min_le_init (l : List Int) (a : Int) : l.foldl min a ≤ a := by
  induction l generalizing a with
  | nil => simp
  | cons b t ih => exact le_trans (ih (min a b)) (min_le_left a b)

lemma foldl_min_le_mem (l : List Int) (a x : Int) (hx : x ∈ l) :
    l.foldl min a ≤ x := by
  induction l generalizing a with
  | nil => cases hx
  | cons b t ih =>
    rcases List.mem_cons.mp hx with h | h
    · subst h
      exact le_trans (foldl_min_le_init t (min a x)) (min_le_right a x)
    · exact ih (min a b) h

lemma le_foldl_max_init (l : List Int) (a : Int) : a ≤ l.foldl max a := by
  induction l generalizing a with
  | nil => simp
  | cons b t ih => exact le_trans (le_max_left a b) (ih (max a b))

lemma le_foldl_max_mem (l : List Int) (a x : Int) (hx : x ∈ l) :
    x ≤ l.foldl max a := by
  induction l generalizing a with
  | nil => cases hx
  | cons b t ih =>
    rcases List.mem_cons.mp hx with h | h
    · subst h
      exact le_trans (le_max_right a x) (le_foldl_max_init t (max a x))
    · exact ih (max a b) h

lemma monthlyTotals_cons_eq (r : Row) (rs : List Row) :
    monthlyTotals (r :: rs) =
      (List.range ((lastKey (r :: rs) - firstKey (r :: rs) + 1).toNat)).map
        (fun i : ℕ =>
          (firstKey (r :: rs) + (i : Int),
           bucketTotal (r :: rs) (firstKey (r :: rs) + (i : Int)))) := rfl

lemma rowKey_mem_bounds (rows : List Row) (q : Row) (hq : q ∈ rows) :
    firstKey rows ≤ rowKey q ∧ rowKey q ≤ lastKey rows := by
  cases rows with
  | nil => cases hq
  | cons r rs =>
    rcases List.mem_cons.mp hq with h | h
    · subst h
      exact ⟨foldl_min_le_init _ _, le_foldl_max_init _ _⟩
    · exact ⟨foldl_min_le_mem _ _ _ (List.mem_map_of_mem rowKey h),
        le_foldl_max_mem _ _ _ (List.mem_map_of_mem rowKey h)⟩

lemma firstKey_le_lastKey (r : Row) (rs : List Row) :
    firstKey (r :: rs) ≤ lastKey (r :: rs) :=
  le_trans (rowKey_mem_bounds _ r (List.mem_cons_self r rs)).1
    (rowKey_mem_bounds _ r (List.mem_cons_self r rs)).2

lemma mem_monthlyTotals_iff (r : Row) (rs : List Row) (kv : Int × Int) :
    kv ∈ monthlyTotals (r :: rs) ↔
      firstKey (r :: rs) ≤ kv.1 ∧ kv.1 ≤ lastKey (r :: rs) ∧
        kv.2 = bucketTotal (r :: rs) kv.1 := by
  rw [monthlyTotals_cons_eq]
  constructor
  · intro hm
    obtain ⟨i, hi, hkv⟩ := List.mem_map.mp hm
    have hic := List.mem_range.mp hi
    cases kv with
    | mk k c =>
      have h1 : firstKey (r :: rs) + (i : Int) = k := congrArg Prod.fst hkv
      have h2 : bucketTotal (r :: rs) (firstKey (r :: rs) + (i : Int)) = c :=
        congrArg Prod.snd hkv
      refine ⟨by omega, by omega, ?_⟩
      simp only at h2 ⊢
      rw [← h2, h1]
  · rintro ⟨h1, h2, h3⟩
    refine List.mem_map.mpr
      ⟨(kv.1 - firstKey (r :: rs)).toNat, ?_, ?_⟩
    · exact List.mem_range.mpr (by omega)
    · have hk : firstKey (r :: rs) +
          (((kv.1 - firstKey (r :: rs)).toNat : ℕ) : Int) = kv.1 := by omega
      rw [hk, ← h3]

lemma monthlyTotals_keys_pairwise (rows : List Row) :
    ((monthlyTotals rows).map Prod.fst).Pairwise (· < ·) := by
  cases rows with
  | nil => simp [monthlyTotals]
  | cons r rs =>
    rw [monthlyTotals_cons_eq, List.map_map]
    have hc : (Prod.fst ∘ fun i : ℕ =>
        (firstKey (r :: rs) + (i : Int),
         bucketTotal (r :: rs) (firstKey (r :: rs) + (i : Int)))) =
        fun i : ℕ => firstKey (r :: rs) + (i : Int) := rfl
    rw [hc]
    refine (List.pairwise_map).mpr ?_
    refine (List.pairwise_lt_range _).imp ?_
    intro a b hab
    omega

lemma monthlyTotals_length_pos (r : Row) (rs : List Row) :
    0 < (monthlyTotals (r :: rs)).length := by
  rw [monthlyTotals_cons_eq, List.length_map, List.length_range]
  have := firstKey_le_lastKey r rs
  omega

lemma sum_if_eq_mem (L : List Int) (k : Int) (c : Int) (hk : k ∈ L)
    (hnd : L.Nodup) :
    (L.map fun j => if k = j then c else 0).sum = c := by
  induction L with
  | nil => cases hk
  | cons b t ih =>
    rcases List.mem_cons.mp hk with h | h
    · subst h
      have hz : (t.map fun j => if k = j then c else 0).sum = 0 := by
        refine List.sum_eq_zero fun x hx => ?_
        obtain ⟨j, hj, hxe⟩ := List.mem_map.mp hx
        have hne : k ≠ j := fun hkj => (List.nodup_cons.mp hnd).1 (hkj ▸ hj)
        simpa [if_neg hne] using hxe.symm
      rw [List.map_cons, List.sum_cons, if_pos rfl, hz, add_zero]
    · have hne : k ≠ b := by
        intro hkb
        exact (List.nodup_cons.mp hnd).1 (hkb ▸ h)
      simp only [List.map_cons, List.sum_cons, if_neg hne, zero_add]
      exact ih h (List.nodup_cons.mp hnd).2

lemma bucketTotal_cons (q : Row) (rows : List Row) (k : Int) :
    bucketTotal (q :: rows) k =
      (if rowKey q = k then q.enrolments else 0) + bucketTotal rows k := by
  by_cases h : rowKey q = k <;> simp [bucketTotal, List.filter_cons, h]

lemma sum_bucketTotals (L : List Int) (rows : List Row) (hnd : L.Nodup)
    (hcov : ∀ q ∈ rows, rowKey q ∈ L) :
    (L.map fun k => bucketTotal rows k).sum = total_enrolments rows := by
  induction rows with
  | nil =>
    have h0 : (L.map fun k => bucketTotal ([] : List Row) k) =
        L.map fun _ => 0 := by simp [bucketTotal]
    rw [h0]
    simp only [total_enrolments, List.map_nil, List.sum_nil]
    exact List.sum_eq_zero (by simp)
  | cons q qs ih =>
    have h1 : (L.map fun k => bucketTotal (q :: qs) k) =
        L.map fun k =>
          ((if rowKey q = k then q.enrolments else 0) + bucketTotal qs k) := by
      simp [bucketTotal_cons]
    rw [h1, List.sum_map_add,
      sum_if_eq_mem L (rowKey q) q.enrolments
        (hcov q (List.mem_cons_self q qs)) hnd,
      ih fun q' hq' => hcov q' (List.mem_cons_of_mem _ hq')]
    simp [total_enrolments]

lemma totals_sum (rows : List Row) :
    (totals rows).sum = ((total_enrolments rows : Int) : ℚ) := by
  cases rows with
  | nil => simp [totals, monthlyTotals, total_enrolments]
  | cons r rs =>
    have key : ((monthlyTotals (r :: rs)).map Prod.snd).sum =
        total_enrolments (r :: rs) := by
      have h2 : ((monthlyTotals (r :: rs)).map Prod.snd) =
          ((List.range ((lastKey (r :: rs) - firstKey (r :: rs) + 1).toNat)).map
            (fun i : ℕ => firstKey (r :: rs) + (i : Int))).map
            (fun k => bucketTotal (r :: rs) k) := by
        rw [monthlyTotals_cons_eq, List.map_map, List.map_map]
        rfl
      rw [h2]
      refine sum_bucketTotals _ _ ?_ ?_
      · refine List.Nodup.map ?_ (List.nodup_range _)
        intro a b hab
        exact Nat.cast_injective (add_left_cancel hab)
      · intro q hq
        obtain ⟨hlo, hhi⟩ := rowKey_mem_bounds _ q hq
        refine List.mem_map.mpr
          ⟨(rowKey q - firstKey (r :: rs)).toNat, ?_, ?_⟩
        · exact List.mem_range.mpr (by omega)
        · show firstKey (r :: rs) +
            (((rowKey q - firstKey (r :: rs)).toNat : ℕ) : Int) = rowKey q
          omega
    calc (totals (r :: rs)).sum
        = (((monthlyTotals (r :: rs)).map Prod.snd).map
            (fun n : Int => (n : ℚ))).sum := by rw [List.map_map]; rfl
      _ = ((((monthlyTotals (r :: rs)).map Prod.snd).sum : Int) : ℚ) := by
            exact_mod_cast (Int.cast_list_sum _).symm
      _ = _ := by rw [key]

lemma detect_eq_filterMap (rows : List Row) (t : ℚ) :
    detect_anomalous_periods rows t =
      (monthlyTotals rows).filterMap fun kv =>
        if isAnomalous (monthlyTotals rows).length (listMean (totals rows))
            (sampleVar (totals rows)) t (kv.2 : ℚ) then
          some ⟨kv.1, kv.2,
            if listMean (totals rows) < (kv.2 : ℚ) then .spike else .drop⟩
        else none := rfl

/-! ## Claims -/

/-- **C1**: for every input and every positive period, when the number of
monthly buckets aggregated from the prepared records is below
`2 * period`, `detect_seasonal_pattern(period)` returns the
insufficient-data variant with `required_periods = 2 * period` and
`available_periods` equal to the bucket count; the result is the error
dict built at lines 57-61, not the `decomposed` variant, so the
decomposition of lines 63-76 is never invoked. -/
theorem c1_insufficient_data (rows : List Row) (period : ℕ)
    (hp : 0 < period)
    (h : (monthlyTotals rows).length < 2 * period) :
    detect_seasonal_pattern rows period =
      .insufficientData (2 * period) ((monthlyTotals rows).length) := by
  unfold detect_seasonal_pattern
  simp [h]

/-- Witness for C1: the empty input with the default period 12 satisfies
the hypotheses, and the theorem yields the error variant there. -/
theorem c1_insufficient_data_witness :
    (0 < 12 ∧ (monthlyTotals ([] : List Row)).length < 2 * 12) ∧
      detect_seasonal_pattern ([] : List Row) 12 =
        .insufficientData (2 * 12) ((monthlyTotals ([] : List Row)).length) :=
  ⟨by decide, c1_insufficient_data [] 12 (by decide) (by decide)⟩

lemma detect_degenerate_eq_nil (rows : List Row) (t : ℚ)
    (h : (monthlyTotals rows).length < 2 ∨ sampleVar (totals rows) = 0) :
    detect_anomalous_periods rows t = [] := by
  rw [detect_eq_filterMap]
  refine List.filterMap_eq_nil_iff.mpr fun kv hkv => ?_
  rcases h with h | h
  · have hn : ¬ (2 ≤ (monthlyTotals rows).length) := by omega
    simp [isAnomalous, hn]
  · simp [isAnomalous, h]

/-- **C4**: `detect_anomalous_periods` never raises a division error; it is
a total function that returns the empty list whenever the pandas sample
standard deviation is `NaN` or zero: on empty input (0 buckets), with
fewer than 2 monthly buckets, and with ≥ 2 buckets of zero variance
(`z = 0/0 = NaN` for every month, and `NaN > threshold` is false, so no
anomaly is flagged). -/
theorem c4_no_division_error (rows : List Row) (t : ℚ)
    (h : (monthlyTotals rows).length < 2 ∨ sampleVar (totals rows) = 0) :
    detect_anomalous_periods rows t = [] :=
  detect_degenerate_eq_nil rows t h

/-- Witness for C4: two equal monthly totals give sample variance zero,
and the anomaly list is empty (the all-degenerate cases of the claim are
simultaneously exercised by `monthlyTotals [] = []` through the same
theorem at the empty input). -/
theorem c4_no_division_error_witness :
    sampleVar (totals [⟨⟨0, 1, 1⟩, 5⟩, ⟨⟨0, 2, 1⟩, 5⟩]) = 0 ∧
      detect_anomalous_periods [⟨⟨0, 1, 1⟩, 5⟩, ⟨⟨0, 2, 1⟩, 5⟩] 2 = [] := by
  have hv : sampleVar (totals [⟨⟨0, 1, 1⟩, 5⟩, ⟨⟨0, 2, 1⟩, 5⟩]) = 0 := by
    with_unfolding_all decide
  exact ⟨hv, c4_no_division_error _ 2 (Or.inr hv)⟩

/-- **C9** counterexample: the claim says months without records produce no
bucket, but `pd.Grouper(freq='ME')` bins the whole span: for records in
January and March of year 0 only, the February bucket (absolute month key
`1`) is present with total `0` although no record has that key. -/
theorem c9_counterexample :
    (1, 0) ∈ monthlyTotals [⟨⟨0, 1, 15⟩, 1⟩, ⟨⟨0, 3, 10⟩, 2⟩] ∧
      ∀ r ∈ [Row.mk ⟨0, 1, 15⟩ 1, Row.mk ⟨0, 3, 10⟩ 2], rowKey r ≠ 1 := by
  decide

/-- **C9** amended: the monthly aggregation used by
`detect_anomalous_periods` and the summary's average *zero-fills* gaps:
for nonempty input the buckets are exactly the full run of calendar
months from the earliest to the latest record month, in strictly
ascending order, each bucket's total being the sum of the records of that
month (`0` for an in-span month with no records) — so empty months do
contribute zero-total buckets to the mean and standard deviation. -/
theorem c9_amended_gaps_zero_filled (rows : List Row) (h : rows ≠ []) :
    ((monthlyTotals rows).map Prod.fst).Pairwise (· < ·) ∧
    (∀ kv ∈ monthlyTotals rows,
        firstKey rows ≤ kv.1 ∧ kv.1 ≤ lastKey rows ∧
          kv.2 = bucketTotal rows kv.1) ∧
    (∀ k : Int, firstKey rows ≤ k → k ≤ lastKey rows →
        (k, bucketTotal rows k) ∈ monthlyTotals rows) ∧
    (∀ q ∈ rows, firstKey rows ≤ rowKey q ∧ rowKey q ≤ lastKey rows) := by
  cases rows with
  | nil => cases h rfl
  | cons r rs =>
    refine ⟨monthlyTotals_keys_pairwise _, ?_, ?_, ?_⟩
    · intro kv hkv
      exact (mem_monthlyTotals_iff r rs kv).mp hkv
    · intro k h1 h2
      exact (mem_monthlyTotals_iff r rs (k, bucketTotal (r :: rs) k)).mpr
        ⟨h1, h2, rfl⟩
    · intro q hq
      exact rowKey_mem_bounds _ q hq

/-- Witness for the amended C9, at the gap input of the counterexample. -/
theorem c9_amended_gaps_zero_filled_witness :
    ([Row.mk ⟨0, 1, 15⟩ 1, Row.mk ⟨0, 3, 10⟩ 2] ≠ []) ∧
      ((monthlyTotals [Row.mk ⟨0, 1, 15⟩ 1, Row.mk ⟨0, 3, 10⟩ 2]).map
        Prod.fst).Pairwise (· < ·) :=
  ⟨by decide,
   (c9_amended_gaps_zero_filled [Row.mk ⟨0, 1, 15⟩ 1, Row.mk ⟨0, 3, 10⟩ 2]
     (by decide)).1⟩

/-- **C10**: for nonempty input (hence at least one monthly bucket) the
summary's `average_monthly_enrolments` is defined and satisfies
`average * bucketCount = total_enrolments` exactly (the mean of the
bucket totals times the number of buckets is their sum, and every
record's count lands in exactly one bucket of the gap-filled binner). -/
theorem c10_average_times_buckets (rows : List Row) (h : rows ≠ []) :
    ∃ a : ℚ, (get_seasonal_summary rows).average_monthly_enrolments = some a ∧
      a * ((monthlyTotals rows).length : ℚ) =
        (((get_seasonal_summary rows).total_enrolments : Int) : ℚ) := by
  cases rows with
  | nil => cases h rfl
  | cons r rs =>
    have hlen : 0 < (totals (r :: rs)).length := by
      rw [totals, List.length_map]
      exact monthlyTotals_length_pos r rs
    obtain ⟨x, xs, hx⟩ :=
      List.exists_cons_of_ne_nil (List.ne_nil_of_length_pos hlen)
    refine ⟨listMean (totals (r :: rs)), ?_, ?_⟩
    · show average_monthly_enrolments (r :: rs) =
        some (listMean (totals (r :: rs)))
      simp only [average_monthly_enrolments, hx]
    · have hlq : ((totals (r :: rs)).length : ℚ) ≠ 0 :=
        ne_of_gt (by exact_mod_cast hlen)
      have hml : listMean (totals (r :: rs)) * ((totals (r :: rs)).length : ℚ)
          = (totals (r :: rs)).sum := by
        rw [listMean]
        exact div_mul_cancel₀ _ hlq
      have hlen2 : (monthlyTotals (r :: rs)).length =
          (totals (r :: rs)).length := by
        rw [totals, List.length_map]
      show listMean (totals (r :: rs)) * ((monthlyTotals (r :: rs)).length : ℚ)
          = ((total_enrolments (r :: rs) : Int) : ℚ)
      rw [hlen2, hml, totals_sum]

/-- Witness for C10 at a one-row input. -/
theorem c10_average_times_buckets_witness :
    ([Row.mk ⟨0, 1, 1⟩ 5] ≠ []) ∧
      ∃ a : ℚ,
        (get_seasonal_summary [Row.mk ⟨0, 1, 1⟩ 5]).average_monthly_enrolments
            = some a ∧
          a * ((monthlyTotals [Row.mk ⟨0, 1, 1⟩ 5]).length : ℚ) =
            (((get_seasonal_summary [Row.mk ⟨0, 1, 1⟩ 5]).total_enrolments :
              Int) : ℚ) :=
  ⟨by decide, c10_average_times_buckets [Row.mk ⟨0, 1, 1⟩ 5] (by decide)⟩

lemma mem_sortedKeys (l : List Int) (x : Int) :
    x ∈ sortedKeys l ↔ x ∈ l := by
  rw [sortedKeys, (List.perm_insertionSort _ _).mem_iff]
  exact List.mem_dedup

lemma insertionSort_desc_props (keys : List Int) (f : Int → ℚ) :
    (List.insertionSort (fun a b : Int × ℚ => b.2 ≤ a.2)
        (keys.map fun m => (m, f m))).Pairwise
        (fun a b : Int × ℚ => b.2 ≤ a.2) ∧
    ((List.insertionSort (fun a b : Int × ℚ => b.2 ≤ a.2)
        (keys.map fun m => (m, f m))).map Prod.fst).Perm keys ∧
    ∀ e ∈ List.insertionSort (fun a b : Int × ℚ => b.2 ≤ a.2)
        (keys.map fun m => (m, f m)), e.2 = f e.1 := by
  refine ⟨List.sorted_insertionSort _ _, ?_, ?_⟩
  · refine ((List.perm_insertionSort _ _).map Prod.fst).trans ?_
    rw [List.map_map]
    have hc : (Prod.fst ∘ fun m : Int => (m, f m)) = fun m : Int => m := rfl
    rw [hc, List.map_id' keys]
  · intro e he
    have he' := (List.perm_insertionSort
      (fun a b : Int × ℚ => b.2 ≤ a.2) (keys.map fun m => (m, f m))).mem_iff.mp he
    obtain ⟨m, _, hme⟩ := List.mem_map.mp he'
    rw [← hme]

lemma listMean_nonneg (l : List ℚ) (h : ∀ x ∈ l, 0 ≤ x) : 0 ≤ listMean l :=
  div_nonneg (List.sum_nonneg h) (Nat.cast_nonneg _)

lemma monthMeans_nonneg (rows : List Row)
    (h0 : ∀ r ∈ rows, 0 ≤ r.enrolments) :
    ∀ x ∈ monthMeans rows, 0 ≤ x := by
  intro x hx
  obtain ⟨m, _, hmx⟩ := List.mem_map.mp hx
  rw [← hmx, monthMean]
  refine div_nonneg (List.sum_nonneg ?_) (Nat.cast_nonneg _)
  intro y hy
  obtain ⟨r, hr, hry⟩ := List.mem_map.mp hy
  have hrr : r ∈ rows := (List.mem_filter.mp hr).1
  rw [← hry]
  exact_mod_cast h0 r hrr

/-- **C5** counterexample: the claim demands exactly 12 (resp. 4) entries
for *every* nonempty input, but `groupby('month')` only emits groups for
month values actually present: a single January row yields one entry in
each ranking, not 12 and 4. -/
theorem c5_counterexample :
    ([Row.mk ⟨0, 1, 15⟩ 5] ≠ []) ∧
      (identify_peak_months [Row.mk ⟨0, 1, 15⟩ 5]).length = 1 ∧
      (identify_peak_quarters [Row.mk ⟨0, 1, 15⟩ 5]).length = 1 := by
  refine ⟨by decide, ?_, ?_⟩ <;> with_unfolding_all decide

/-- **C5** amended: for every non-empty input, `identify_peak_months`
returns exactly one entry per distinct month value present in the data
(12 entries exactly when all 12 months occur), ordered descending by the
cross-year mean count, each value being that month's mean; likewise
`identify_peak_quarters` per distinct quarter present. -/
theorem c5_peak_rankings (rows : List Row) (h : rows ≠ []) :
    (identify_peak_months rows ≠ [] ∧
      (identify_peak_months rows).Pairwise
        (fun a b : Int × ℚ => b.2 ≤ a.2) ∧
      ((identify_peak_months rows).map Prod.fst).Perm (monthsPresent rows) ∧
      ∀ e ∈ identify_peak_months rows, e.2 = monthMean rows e.1) ∧
    (identify_peak_quarters rows ≠ [] ∧
      (identify_peak_quarters rows).Pairwise
        (fun a b : Int × ℚ => b.2 ≤ a.2) ∧
      ((identify_peak_quarters rows).map Prod.fst).Perm
        (quartersPresent rows) ∧
      ∀ e ∈ identify_peak_quarters rows, e.2 = quarterMean rows e.1) := by
  obtain ⟨r, rs, rfl⟩ := List.exists_cons_of_ne_nil h
  obtain ⟨hs1, hp1, hv1⟩ :=
    insertionSort_desc_props (monthsPresent (r :: rs)) (monthMean (r :: rs))
  obtain ⟨hs2, hp2, hv2⟩ :=
    insertionSort_desc_props (quartersPresent (r :: rs))
      (quarterMean (r :: rs))
  refine ⟨⟨?_, hs1, hp1, hv1⟩, ⟨?_, hs2, hp2, hv2⟩⟩
  · intro hnil
    have hmem : r.date.month ∈ monthsPresent (r :: rs) :=
      (mem_sortedKeys _ _).mpr
        (List.mem_map_of_mem _ (List.mem_cons_self r rs))
    have h2 : r.date.month ∈ (identify_peak_months (r :: rs)).map Prod.fst :=
      hp1.mem_iff.mpr hmem
    rw [hnil] at h2
    simp at h2
  · intro hnil
    have hmem : quarterOf r.date ∈ quartersPresent (r :: rs) :=
      (mem_sortedKeys _ _).mpr
        (List.mem_map_of_mem _ (List.mem_cons_self r rs))
    have h2 : quarterOf r.date ∈ (identify_peak_quarters (r :: rs)).map
        Prod.fst := hp2.mem_iff.mpr hmem
    rw [hnil] at h2
    simp at h2

/-- Witness for the amended C5 at a two-month input. -/
theorem c5_peak_rankings_witness :
    ([Row.mk ⟨0, 1, 1⟩ 1, Row.mk ⟨0, 2, 1⟩ 3] ≠ []) ∧
      ((identify_peak_months [Row.mk ⟨0, 1, 1⟩ 1, Row.mk ⟨0, 2, 1⟩ 3]).map
        Prod.fst).Perm
        (monthsPresent [Row.mk ⟨0, 1, 1⟩ 1, Row.mk ⟨0, 2, 1⟩ 3]) :=
  ⟨by decide,
   (c5_peak_rankings [Row.mk ⟨0, 1, 1⟩ 1, Row.mk ⟨0, 2, 1⟩ 3]
     (by decide)).1.2.2.1⟩

/-- **C6** counterexample: a single-month input has a nonzero mean of the
per-month means (here `5`), yet `monthly_avg.std()` over one value is
`NaN` with `ddof = 1`, `cv` is `NaN`, and Python's `min(cv, 1.0)` keeps
`NaN` (the comparison `1.0 < nan` is false), so the function silently
returns `NaN` — which is not in `[0, 1]` and is neither the coefficient
of variation nor its truncation to 1, refuting the claim as stated. -/
theorem c6_counterexample :
    calculate_seasonality_strength [Row.mk ⟨0, 1, 15⟩ 5] = .nan ∧
      listMean (monthMeans [Row.mk ⟨0, 1, 15⟩ 5]) ≠ 0 := by
  with_unfolding_all decide

/-- **C6** amended: for every input with non-negative counts, at least two
distinct month values present, and nonzero mean of the per-month means,
the returned value `min(cv, 1.0)` is a genuine real in `[0, 1]`, equal to
the coefficient of variation `std / mean` (pandas sample std) when that
is at most 1 and truncated to 1 when it exceeds 1; the
`StrengthResult` computed by the embedding is `clampedOne` exactly in the
truncation case and carries `(variance, mean)` of the finite `cv`
otherwise. -/
theorem c6_strength_clamped (rows : List Row)
    (h0 : ∀ r ∈ rows, 0 ≤ r.enrolments)
    (hk : 2 ≤ (monthMeans rows).length)
    (hm : listMean (monthMeans rows) ≠ 0) :
    (0 : ℝ) ≤ min (Real.sqrt (sampleVar (monthMeans rows) : ℝ) /
        (listMean (monthMeans rows) : ℝ)) 1 ∧
    min (Real.sqrt (sampleVar (monthMeans rows) : ℝ) /
        (listMean (monthMeans rows) : ℝ)) 1 ≤ 1 ∧
    (Real.sqrt (sampleVar (monthMeans rows) : ℝ) /
          (listMean (monthMeans rows) : ℝ) ≤ 1 →
      min (Real.sqrt (sampleVar (monthMeans rows) : ℝ) /
          (listMean (monthMeans rows) : ℝ)) 1 =
        Real.sqrt (sampleVar (monthMeans rows) : ℝ) /
          (listMean (monthMeans rows) : ℝ)) ∧
    ((1 : ℝ) < Real.sqrt (sampleVar (monthMeans rows) : ℝ) /
          (listMean (monthMeans rows) : ℝ) →
      min (Real.sqrt (sampleVar (monthMeans rows) : ℝ) /
          (listMean (monthMeans rows) : ℝ)) 1 = 1) ∧
    ((calculate_seasonality_strength rows = .clampedOne ∧
        (1 : ℝ) ≤ Real.sqrt (sampleVar (monthMeans rows) : ℝ) /
          (listMean (monthMeans rows) : ℝ)) ∨
      (calculate_seasonality_strength rows =
          .cv (sampleVar (monthMeans rows)) (listMean (monthMeans rows)) ∧
        Real.sqrt (sampleVar (monthMeans rows) : ℝ) /
          (listMean (monthMeans rows) : ℝ) < 1)) := by
  have hmq : 0 < listMean (monthMeans rows) :=
    lt_of_le_of_ne (listMean_nonneg _ (monthMeans_nonneg rows h0)) (Ne.symm hm)
  have hmr : (0 : ℝ) < (listMean (monthMeans rows) : ℝ) := by exact_mod_cast hmq
  have hcv0 : (0 : ℝ) ≤ Real.sqrt (sampleVar (monthMeans rows) : ℝ) /
      (listMean (monthMeans rows) : ℝ) :=
    div_nonneg (Real.sqrt_nonneg _) hmr.le
  refine ⟨le_min hcv0 zero_le_one, min_le_right _ _,
    fun hcv1 => min_eq_left hcv1, fun hcv1 => min_eq_right hcv1.le, ?_⟩
  have hk' : ¬ ((monthMeans rows).length < 2) := by omega
  by_cases hsq : listMean (monthMeans rows) ^ 2 ≤ sampleVar (monthMeans rows)
  · left
    constructor
    · simp only [calculate_seasonality_strength]
      rw [if_neg hk', if_neg hm, if_pos ⟨hmq, hsq⟩]
    · have hvr : (0 : ℝ) ≤ (sampleVar (monthMeans rows) : ℝ) := by
        have hq : (0 : ℚ) ≤ sampleVar (monthMeans rows) :=
          le_trans (sq_nonneg _) hsq
        exact_mod_cast hq
      have h1 : (listMean (monthMeans rows) : ℝ) ≤
          Real.sqrt (sampleVar (monthMeans rows) : ℝ) := by
        rw [Real.le_sqrt hmr.le hvr]
        exact_mod_cast hsq
      exact (one_le_div hmr).mpr h1
  · right
    constructor
    · simp only [calculate_seasonality_strength]
      rw [if_neg hk', if_neg hm, if_neg (fun hc => hsq hc.2)]
    · have h1 : Real.sqrt (sampleVar (monthMeans rows) : ℝ) <
          (listMean (monthMeans rows) : ℝ) := by
        rw [Real.sqrt_lt' hmr]
        exact_mod_cast lt_of_not_le hsq
      exact (div_lt_one hmr).mpr h1

/-- Witness for the amended C6 at a two-month input with means 1 and 3. -/
theorem c6_strength_clamped_witness :
    ((∀ r ∈ [Row.mk ⟨0, 1, 1⟩ 1, Row.mk ⟨0, 2, 1⟩ 3], 0 ≤ r.enrolments) ∧
      2 ≤ (monthMeans [Row.mk ⟨0, 1, 1⟩ 1, Row.mk ⟨0, 2, 1⟩ 3]).length ∧
      listMean (monthMeans [Row.mk ⟨0, 1, 1⟩ 1, Row.mk ⟨0, 2, 1⟩ 3]) ≠ 0) ∧
      (0 : ℝ) ≤ min (Real.sqrt
        (sampleVar (monthMeans [Row.mk ⟨0, 1, 1⟩ 1, Row.mk ⟨0, 2, 1⟩ 3]) : ℝ) /
        (listMean (monthMeans [Row.mk ⟨0, 1, 1⟩ 1, Row.mk ⟨0, 2, 1⟩ 3]) : ℝ))
        1 := by
  have h0 : ∀ r ∈ [Row.mk ⟨0, 1, 1⟩ 1, Row.mk ⟨0, 2, 1⟩ 3],
      0 ≤ r.enrolments := by decide
  have hk : 2 ≤ (monthMeans [Row.mk ⟨0, 1, 1⟩ 1, Row.mk ⟨0, 2, 1⟩ 3]).length :=
    by with_unfolding_all decide
  have hm : listMean (monthMeans [Row.mk ⟨0, 1, 1⟩ 1, Row.mk ⟨0, 2, 1⟩ 3]) ≠ 0
    := by with_unfolding_all decide
  exact ⟨⟨h0, hk, hm⟩, (c6_strength_clamped _ h0 hk hm).1⟩

/-- **C7** counterexample: neither zero-denominator situation fails with a
`DivisionByZeroError` nor returns a documented sentinel — both produce an
IEEE `NaN` silently: the summary's average monthly count on an empty
frame is `mean()` of an empty series (`NaN`, modelled `none`), and the
strength on an all-zero two-month input is `0/0` (`NaN`). -/
theorem c7_counterexample :
    average_monthly_enrolments [] = none ∧
      calculate_seasonality_strength
        [Row.mk ⟨0, 1, 15⟩ 0, Row.mk ⟨0, 2, 10⟩ 0] = .nan :=
  ⟨by decide, by with_unfolding_all decide⟩

/-- **C7** amended: when a mean denominator is zero or undefined the code
raises nothing and defines no sentinel; it silently propagates the float:
the summary's average monthly count is `NaN` exactly when zero monthly
buckets exist, and with at least two distinct months and zero mean of the
per-month means, `calculate_seasonality_strength` is `NaN` when the
variance is also zero (`0/0`) and is silently clamped to `1.0` otherwise
(the quotient is `+inf`). -/
theorem c7_silent_nan (rows : List Row)
    (hm : listMean (monthMeans rows) = 0)
    (hk : 2 ≤ (monthMeans rows).length) :
    (average_monthly_enrolments rows = none ↔ monthlyTotals rows = []) ∧
    calculate_seasonality_strength rows =
      (if sampleVar (monthMeans rows) = 0 then .nan else .clampedOne) := by
  constructor
  · cases htot : totals rows with
    | nil =>
      simp only [average_monthly_enrolments, htot]
      have : monthlyTotals rows = [] := by
        have := htot
        rw [totals] at this
        exact List.map_eq_nil_iff.mp this
      simp [this]
    | cons x xs =>
      simp only [average_monthly_enrolments, htot]
      constructor
      · intro hc
        cases hc
      · intro hc
        rw [totals, hc] at htot
        cases htot
  · have hk' : ¬ ((monthMeans rows).length < 2) := by omega
    simp only [calculate_seasonality_strength]
    rw [if_neg hk', if_pos hm]

/-- Witness for the amended C7 at the all-zero two-month input. -/
theorem c7_silent_nan_witness :
    (listMean (monthMeans [Row.mk ⟨0, 1, 15⟩ 0, Row.mk ⟨0, 2, 10⟩ 0]) = 0 ∧
      2 ≤ (monthMeans [Row.mk ⟨0, 1, 15⟩ 0, Row.mk ⟨0, 2, 10⟩ 0]).length) ∧
      (average_monthly_enrolments [Row.mk ⟨0, 1, 15⟩ 0, Row.mk ⟨0, 2, 10⟩ 0]
          = none ↔
        monthlyTotals [Row.mk ⟨0, 1, 15⟩ 0, Row.mk ⟨0, 2, 10⟩ 0] = []) := by
  have hm : listMean (monthMeans [Row.mk ⟨0, 1, 15⟩ 0, Row.mk ⟨0, 2, 10⟩ 0])
      = 0 := by with_unfolding_all decide
  have hk : 2 ≤ (monthMeans
      [Row.mk ⟨0, 1, 15⟩ 0, Row.mk ⟨0, 2, 10⟩ 0]).length := by
    with_unfolding_all decide
  exact ⟨⟨hm, hk⟩, (c7_silent_nan _ hm hk).1⟩

/-- **C8**: evaluation of the preparation path at the failing input.  The
detector sorts the raw `date` column (line 24) *before* converting it to
datetimes (line 31); on the parseable string dates `'3-9-1'` (September)
and `'3-10-1'` (October) the lexicographic string order puts October
first, so the prepared records come out strictly *descending* by
timestamp, violating the claimed ascending-timestamp invariant. -/
theorem c8_sort_before_conversion :
    prepare_raw [⟨"3-9-1", 1⟩, ⟨"3-10-1", 2⟩] =
      some [Row.mk ⟨3, 10, 1⟩ 2, Row.mk ⟨3, 9, 1⟩ 1] ∧
      monthIndex ⟨3, 9, 1⟩ < monthIndex ⟨3, 10, 1⟩ :=
  ⟨by with_unfolding_all decide, by decide⟩

lemma abs_z_gt_iff (v t d : ℚ) (hv : 0 < v) (ht : 0 ≤ t) :
    ((t : ℝ) < |(d : ℝ)| / Real.sqrt (v : ℝ)) ↔ t ^ 2 * v < d ^ 2 := by
  have hvr : (0 : ℝ) < (v : ℝ) := by exact_mod_cast hv
  have hs : (0 : ℝ) < Real.sqrt (v : ℝ) := Real.sqrt_pos.mpr hvr
  have htr : (0 : ℝ) ≤ (t : ℝ) := by exact_mod_cast ht
  rw [lt_div_iff₀ hs,
    ← pow_lt_pow_iff_left₀ (mul_nonneg htr hs.le) (abs_nonneg _) two_ne_zero,
    mul_pow, Real.sq_sqrt hvr.le, sq_abs]
  exact ⟨fun h => by exact_mod_cast h, fun h => by exact_mod_cast h⟩

lemma z_pos_iff (v d : ℚ) (hv : 0 < v) :
    ((0 : ℝ) < (d : ℝ) / Real.sqrt (v : ℝ)) ↔ 0 < d := by
  have hvr : (0 : ℝ) < (v : ℝ) := by exact_mod_cast hv
  have hs : (0 : ℝ) < Real.sqrt (v : ℝ) := Real.sqrt_pos.mpr hvr
  rw [div_pos_iff_of_pos_right hs]
  exact ⟨fun h => by exact_mod_cast h, fun h => by exact_mod_cast h⟩

lemma isAnomalous_iff_real (n : ℕ) (m v t x : ℚ) (hn : 2 ≤ n) (hv : 0 < v) :
    isAnomalous n m v t x = true ↔
      (t : ℝ) < |((x - m : ℚ) : ℝ)| / Real.sqrt (v : ℝ) := by
  have hvr : (0 : ℝ) < (v : ℝ) := by exact_mod_cast hv
  have hs : (0 : ℝ) < Real.sqrt (v : ℝ) := Real.sqrt_pos.mpr hvr
  simp only [isAnomalous, Bool.and_eq_true, Bool.or_eq_true, decide_eq_true_eq]
  constructor
  · rintro ⟨-, ht | ht⟩
    · calc (t : ℝ) < 0 := by exact_mod_cast ht
        _ ≤ _ := div_nonneg (abs_nonneg _) hs.le
    · rcases le_or_lt 0 t with h0 | h0
      · exact (abs_z_gt_iff v t _ hv h0).mpr ht
      · calc (t : ℝ) < 0 := by exact_mod_cast h0
          _ ≤ _ := div_nonneg (abs_nonneg _) hs.le
  · intro h
    refine ⟨⟨hn, ne_of_gt hv⟩, ?_⟩
    rcases lt_or_le t 0 with h0 | h0
    · exact Or.inl h0
    · exact Or.inr ((abs_z_gt_iff v t _ hv h0).mp h)

lemma filterMap_months_sublist (l : List (Int × Int))
    (f : Int × Int → Option AnomalyRecord)
    (hf : ∀ kv a, f kv = some a → a.month = kv.1) :
    List.Sublist ((l.filterMap f).map AnomalyRecord.month)
      (l.map Prod.fst) := by
  induction l with
  | nil => simp
  | cons kv tl ih =>
    rw [List.filterMap_cons]
    cases hc : f kv with
    | none =>
      rw [List.map_cons]
      exact ih.cons _
    | some a =>
      rw [List.map_cons, List.map_cons, hf kv a hc]
      exact ih.cons₂ _

lemma eq_of_mem_of_fst_eq {l : List (Int × Int)}
    (hnd : (l.map Prod.fst).Nodup) {a b : Int × Int}
    (ha : a ∈ l) (hb : b ∈ l) (hab : a.1 = b.1) : a = b := by
  induction l with
  | nil => cases ha
  | cons c tl ih =>
    rw [List.map_cons, List.nodup_cons] at hnd
    rcases List.mem_cons.mp ha with h1 | h1 <;>
      rcases List.mem_cons.mp hb with h2 | h2
    · rw [h1, h2]
    · exfalso
      apply hnd.1
      rw [h1] at hab
      rw [hab]
      exact List.mem_map_of_mem _ h2
    · exfalso
      apply hnd.1
      rw [h2] at hab
      rw [← hab]
      exact List.mem_map_of_mem _ h1
    · exact ih hnd.2 h1 h2

/-- **C3**: for every input and every threshold,
`detect_anomalous_periods(threshold)` behaves as the z-score filter over
the monthly totals.  When at least 2 monthly buckets exist and the sample
variance is positive — i.e. whenever the z-scores of lines 126-128 are
genuine floats — the months are emitted in strictly ascending
chronological order; a monthly bucket contributes a record exactly when
the absolute value of its z-score `(total - mean) / std` — `mean` over
the monthly totals, `std` the sample standard deviation with `ddof = 1`
(denominator `N - 1`, the square root of `sampleVar`) — strictly exceeds
the threshold; the record carries that month's total, its kind is `spike`
exactly when the z-score is positive (`drop` otherwise); and every record
comes from a monthly bucket.  In the remaining cases (fewer than 2
buckets, or zero variance) every z-score is IEEE `NaN`, no comparison
against it holds, and the result is empty. -/
theorem c3_anomaly_zscores (rows : List Row) (t : ℚ) :
    ((2 ≤ (monthlyTotals rows).length ∧ 0 < sampleVar (totals rows)) →
      ((detect_anomalous_periods rows t).map AnomalyRecord.month).Pairwise
        (· < ·) ∧
      (∀ kv ∈ monthlyTotals rows,
        ((t : ℝ) < |(((kv.2 : ℚ) - listMean (totals rows) : ℚ) : ℝ)| /
            Real.sqrt (sampleVar (totals rows) : ℝ) ↔
          ∃ a ∈ detect_anomalous_periods rows t, a.month = kv.1)) ∧
      (∀ kv ∈ monthlyTotals rows, ∀ a ∈ detect_anomalous_periods rows t,
        a.month = kv.1 →
          a.enrolments = kv.2 ∧
            (a.kind = .spike ↔
              (0 : ℝ) < (((kv.2 : ℚ) - listMean (totals rows) : ℚ) : ℝ) /
                Real.sqrt (sampleVar (totals rows) : ℝ))) ∧
      (∀ a ∈ detect_anomalous_periods rows t,
        ∃ kv ∈ monthlyTotals rows, a.month = kv.1 ∧ a.enrolments = kv.2)) ∧
    ((monthlyTotals rows).length < 2 ∨ sampleVar (totals rows) = 0 →
      detect_anomalous_periods rows t = []) := by
  refine ⟨?_, detect_degenerate_eq_nil rows t⟩
  rintro ⟨hn, hv⟩
  have hpair : ((monthlyTotals rows).map Prod.fst).Pairwise (· < ·) :=
    monthlyTotals_keys_pairwise rows
  have hnd : ((monthlyTotals rows).map Prod.fst).Nodup := hpair.imp ne_of_lt
  have hchar : ∀ a ∈ detect_anomalous_periods rows t,
      ∃ kv ∈ monthlyTotals rows,
        isAnomalous (monthlyTotals rows).length (listMean (totals rows))
            (sampleVar (totals rows)) t (kv.2 : ℚ) = true ∧
          a = ⟨kv.1, kv.2,
            if listMean (totals rows) < (kv.2 : ℚ) then .spike else .drop⟩ := by
    intro a ha
    rw [detect_eq_filterMap] at ha
    obtain ⟨kv, hkv, hfkv⟩ := List.mem_filterMap.mp ha
    by_cases hg : isAnomalous (monthlyTotals rows).length
        (listMean (totals rows)) (sampleVar (totals rows)) t (kv.2 : ℚ) = true
    · rw [if_pos hg] at hfkv
      exact ⟨kv, hkv, hg, (Option.some_inj.mp hfkv).symm⟩
    · rw [if_neg hg] at hfkv
      cases hfkv
  refine ⟨?_, ?_, ?_, ?_⟩
  · rw [detect_eq_filterMap]
    refine hpair.sublist (filterMap_months_sublist _ _ ?_)
    intro kv a hfa
    by_cases hg : isAnomalous (monthlyTotals rows).length
        (listMean (totals rows)) (sampleVar (totals rows)) t (kv.2 : ℚ) = true
    · rw [if_pos hg] at hfa
      rw [← Option.some_inj.mp hfa]
    · rw [if_neg hg] at hfa
      cases hfa
  · intro kv hkv
    constructor
    · intro hz
      have hg : isAnomalous (monthlyTotals rows).length
          (listMean (totals rows)) (sampleVar (totals rows)) t
          (kv.2 : ℚ) = true :=
        (isAnomalous_iff_real _ _ _ _ _ hn hv).mpr hz
      refine ⟨⟨kv.1, kv.2,
        if listMean (totals rows) < (kv.2 : ℚ) then .spike else .drop⟩,
        ?_, rfl⟩
      rw [detect_eq_filterMap]
      exact List.mem_filterMap.mpr ⟨kv, hkv, by rw [if_pos hg]⟩
    · rintro ⟨a, ha, ham⟩
      obtain ⟨kv', hkv', hg', ha'⟩ := hchar a ha
      have hfst : kv' = kv := by
        refine eq_of_mem_of_fst_eq hnd hkv' hkv ?_
        rw [← ham, ha']
      rw [hfst] at hg'
      exact (isAnomalous_iff_real _ _ _ _ _ hn hv).mp hg'
  · intro kv hkv a ha ham
    obtain ⟨kv', hkv', hg', ha'⟩ := hchar a ha
    have hfst : kv' = kv := by
      refine eq_of_mem_of_fst_eq hnd hkv' hkv ?_
      rw [← ham, ha']
    rw [hfst] at ha'
    constructor
    · rw [ha']
    · rw [ha']
      show (if listMean (totals rows) < (kv.2 : ℚ) then
          AnomalyKind.spike else AnomalyKind.drop) = .spike ↔ _
      rw [z_pos_iff (sampleVar (totals rows))
        ((kv.2 : ℚ) - listMean (totals rows)) hv, sub_pos]
      by_cases hmx : listMean (totals rows) < (kv.2 : ℚ)
      · simp [if_pos hmx, hmx]
      · simp [if_neg hmx, hmx]
  · intro a ha
    obtain ⟨kv, hkv, -, ha'⟩ := hchar a ha
    exact ⟨kv, hkv, by rw [ha'], by rw [ha']⟩

/-- Witness for C3: two buckets with totals 10 and 30 give positive sample
variance; the theorem's non-degenerate regime applies at threshold
`1/2`. -/
theorem c3_anomaly_zscores_witness :
    (2 ≤ (monthlyTotals [Row.mk ⟨0, 1, 1⟩ 10, Row.mk ⟨0, 2, 1⟩ 30]).length ∧
      0 < sampleVar (totals [Row.mk ⟨0, 1, 1⟩ 10, Row.mk ⟨0, 2, 1⟩ 30])) ∧
      ((detect_anomalous_periods [Row.mk ⟨0, 1, 1⟩ 10, Row.mk ⟨0, 2, 1⟩ 30]
        (1 / 2)).map AnomalyRecord.month).Pairwise (· < ·) := by
  have hn : 2 ≤ (monthlyTotals
      [Row.mk ⟨0, 1, 1⟩ 10, Row.mk ⟨0, 2, 1⟩ 30]).length := by decide
  have hv : 0 < sampleVar (totals
      [Row.mk ⟨0, 1, 1⟩ 10, Row.mk ⟨0, 2, 1⟩ 30]) := by
    with_unfolding_all decide
  exact ⟨⟨hn, hv⟩,
    ((c3_anomaly_zscores [Row.mk ⟨0, 1, 1⟩ 10, Row.mk ⟨0, 2, 1⟩ 30]
      (1 / 2)).1 ⟨hn, hv⟩).1⟩

lemma getD_range_map {α : Type} (n : ℕ) (f : ℕ → α) (d : α) (i : ℕ)
    (hi : i < n) : ((List.range n).map f).getD i d = f i := by
  have hlen : i < ((List.range n).map f).length := by simpa using hi
  rw [List.getD_eq_getElem _ _ hlen]
  simp

lemma map_getD_range (L : List Int) :
    (List.range L.length).map (fun i => L.getD i 0) = L := by
  refine List.ext_getElem (by simp) ?_
  intro i h1 h2
  simp only [List.getElem_map, List.getElem_range]
  exact List.getD_eq_getElem L 0 h2

lemma detect_seasonal_pattern_eq (rows : List Row) (p : ℕ) :
    detect_seasonal_pattern rows p =
      if (monthlyTotals rows).length < 2 * p then
        .insufficientData (2 * p) (monthlyTotals rows).length
      else
        .decomposed
          ((List.range (monthlyTotals rows).length).map fun i =>
            (((monthlyTotals rows).map Prod.fst).getD i 0,
             seriesAt ((monthlyTotals rows).map fun kv => (kv.2 : ℚ)) i))
          ((List.range (monthlyTotals rows).length).map fun i =>
            (((monthlyTotals rows).map Prod.fst).getD i 0,
             trendAt ((monthlyTotals rows).map fun kv => (kv.2 : ℚ)) p i))
          ((List.range (monthlyTotals rows).length).map fun i =>
            (((monthlyTotals rows).map Prod.fst).getD i 0,
             seasonalAt ((monthlyTotals rows).map fun kv => (kv.2 : ℚ)) p i))
          ((List.range (monthlyTotals rows).length).map fun i =>
            (((monthlyTotals rows).map Prod.fst).getD i 0,
             residAt ((monthlyTotals rows).map fun kv => (kv.2 : ℚ)) p i)) :=
  rfl

/-- **C2**: whenever `detect_seasonal_pattern` succeeds (returns the
four-component variant rather than the error variant), the four series
are keyed identically by the monthly buckets — in particular the trend
series covers every observed month with a (rational) value, the formal
content of the full-length `extrapolate_trend='freq'` trend with no
missing leading/trailing entries — and at every position the additive
identity `observed = trend + seasonal + residual` holds exactly in `ℚ`
(hence within any floating-point tolerance). -/
theorem c2_additive_identity (rows : List Row) (p : ℕ)
    (o tr se re : List (Int × ℚ))
    (h : detect_seasonal_pattern rows p = .decomposed o tr se re) :
    o.map Prod.fst = (monthlyTotals rows).map Prod.fst ∧
    tr.map Prod.fst = o.map Prod.fst ∧
    se.map Prod.fst = o.map Prod.fst ∧
    re.map Prod.fst = o.map Prod.fst ∧
    o.length = (monthlyTotals rows).length ∧
    ∀ i, i < o.length →
      (o.getD i (0, 0)).2 =
        (tr.getD i (0, 0)).2 + (se.getD i (0, 0)).2 + (re.getD i (0, 0)).2
    := by
  rw [detect_seasonal_pattern_eq] at h
  by_cases hlt : (monthlyTotals rows).length < 2 * p
  · rw [if_pos hlt] at h
    exact DecompResult.noConfusion h
  · rw [if_neg hlt] at h
    injection h with h1 h2 h3 h4
    subst h1
    subst h2
    subst h3
    subst h4
    refine ⟨?_, ?_, ?_, ?_, by simp, ?_⟩
    · rw [List.map_map]
      simpa using map_getD_range ((monthlyTotals rows).map Prod.fst)
    · rw [List.map_map, List.map_map]
      rfl
    · rw [List.map_map, List.map_map]
      rfl
    · rw [List.map_map, List.map_map]
      rfl
    · intro i hi
      have hi' : i < (monthlyTotals rows).length := by simpa using hi
      rw [getD_range_map _ _ _ _ hi', getD_range_map _ _ _ _ hi',
        getD_range_map _ _ _ _ hi', getD_range_map _ _ _ _ hi']
      show seriesAt _ i = trendAt _ p i + seasonalAt _ p i + residAt _ p i
      rw [residAt]
      ring

/-- Witness for C2: two monthly buckets with period 1 succeed; the trend
equals the series, the seasonal and residual components vanish, and the
theorem applies to this success. -/
theorem c2_additive_identity_witness :
    detect_seasonal_pattern [Row.mk ⟨0, 1, 1⟩ 1, Row.mk ⟨0, 2, 1⟩ 2] 1 =
      .decomposed [(0, 1), (1, 2)] [(0, 1), (1, 2)] [(0, 0), (1, 0)]
        [(0, 0), (1, 0)] ∧
      ([(0, 1), (1, 2)] : List (Int × ℚ)).map Prod.fst =
        (monthlyTotals [Row.mk ⟨0, 1, 1⟩ 1, Row.mk ⟨0, 2, 1⟩ 2]).map
          Prod.fst := by
  have h : detect_seasonal_pattern [Row.mk ⟨0, 1, 1⟩ 1, Row.mk ⟨0, 2, 1⟩ 2] 1
      = .decomposed [(0, 1), (1, 2)] [(0, 1), (1, 2)] [(0, 0), (1, 0)]
        [(0, 0), (1, 0)] := by
    with_unfolding_all decide
  exact ⟨h, (c2_additive_identity _ _ _ _ _ _ h).1⟩
